import Mathlib

/-!
Verification of the nessai fragment: the reparameterisation registry
(`get_reparameterisation`) and the sampling utilities in
`nessai/utils/sampling.py`.

The registry implementation is not part of the provided sources (only its
test suite is), so it is modelled from the specification.  The sampling
utilities are embedded from `nessai/utils/sampling.py`: numpy arrays become
lists of lists of rationals, the global random generator becomes explicit
streams `ℕ → ℚ` of variates, and the external math-library functions
(`np.sqrt`, the power `** (1/dims)`, `scipy.stats.chi.cdf` / `.ppf`) become
oracle parameters `ℚ → ℚ`, constrained by hypotheses where a result needs
their defining properties.
-/

/-- Modelled from the spec: values occurring in the default-kwargs
dictionaries of the registry (booleans such as `detect_edges: True`,
numbers such as `scale: 2.0`, strings such as `inversion_type: "split"`).
The registry source is missing from the provided tree. -/
inductive KwValue where
  | bool (b : Bool)
  | num (q : ℚ)
  | str (s : String)
deriving DecidableEq, Repr

/-- A kwargs dictionary, as the list of its key/value pairs. -/
abbrev Kwargs := List (String × KwValue)

/-- Modelled from the spec: a Python class object as seen by the registry.
Only two observations matter to `get_reparameterisation`: the class's
identity (its name) and whether it structurally satisfies the
Reparameterisation capability (forward/inverse plus name/prior-bounds
interface). -/
structure PyClass where
  name : String
  satisfiesReparameterisation : Bool
deriving DecidableEq, Repr

/-- Modelled from the spec: the canonical bounded-rescale class. -/
def RescaleToBounds : PyClass := ⟨"RescaleToBounds", true⟩

/-- Modelled from the spec: the plain rescale class. -/
def Rescale : PyClass := ⟨"Rescale", true⟩

/-- Modelled from the spec: the single-angle class. -/
def Angle : PyClass := ⟨"Angle", true⟩

/-- Modelled from the spec: the angle-pair class. -/
def AnglePair : PyClass := ⟨"AnglePair", true⟩

/-- Modelled from the spec: the to-Cartesian class. -/
def ToCartesian : PyClass := ⟨"ToCartesian", true⟩

/-- Modelled from the spec: the null (identity) reparameterisation class. -/
def NullReparameterisation : PyClass := ⟨"NullReparameterisation", true⟩

/-- Modelled from the spec: the possible arguments of
`get_reparameterisation`: `None`, a string, a class object, or a value of
any other type (the tests use the integer `2`). -/
inductive Identifier where
  | pyNone
  | pyStr (s : String)
  | pyCls (c : PyClass)
  | pyInt (n : Int)
deriving DecidableEq, Repr

/-- Modelled from the spec: the two error kinds `get_reparameterisation`
can raise, each carrying its message. -/
inductive RegistryError where
  | valueError (msg : String)
  | typeError (msg : String)
deriving DecidableEq, Repr

/-- Modelled from the spec: one lower-case character step of the
case-insensitive, separator-insensitive key normalisation: `_` becomes `-`
and upper-case ASCII letters become lower-case. -/
def normaliseChar (c : Char) : Char :=
  if c = '_' then '-'
  else if 65 ≤ c.toNat ∧ c.toNat ≤ 90 then Char.ofNat (c.toNat + 32)
  else c

/-- Modelled from the spec: key normalisation for registry lookups
(case-insensitive, `-`/`_` equivalent). -/
def normalise (s : String) : String := String.mk (s.data.map normaliseChar)

/-- Modelled from the spec: the known-alias table, keyed by normalised
name, with each alias's class and fixed default kwargs. -/
def knownTable : List (String × (PyClass × Kwargs)) :=
  [ ("default", (RescaleToBounds, [])),
    ("rescaletobounds", (RescaleToBounds, [])),
    ("rescale-to-bounds", (RescaleToBounds, [])),
    ("offset", (RescaleToBounds, [("offset", KwValue.bool true)])),
    ("inversion",
      (RescaleToBounds,
        [("detect_edges", KwValue.bool true),
         ("boundary_inversion", KwValue.bool true),
         ("inversion_type", KwValue.str ("split"))])),
    ("inversion-duplicate",
      (RescaleToBounds,
        [("detect_edges", KwValue.bool true),
         ("boundary_inversion", KwValue.bool true),
         ("inversion_type", KwValue.str ("duplicate"))])),
    ("scale", (Rescale, [])),
    ("rescale", (Rescale, [])),
    ("angle", (Angle, [])),
    ("angle-pi",
      (Angle, [("scale", KwValue.num 2), ("prior", KwValue.str ("uniform"))])),
    ("angle-2pi",
      (Angle, [("scale", KwValue.num 1), ("prior", KwValue.str ("uniform"))])),
    ("angle-sine",
      (Angle, [("scale", KwValue.num 1), ("prior", KwValue.str ("sine"))])),
    ("angle-pair", (AnglePair, [])),
    ("to-cartesian", (ToCartesian, [])),
    ("none", (NullReparameterisation, [])),
    ("null", (NullReparameterisation, [])) ]

/-- Modelled from the spec: the message of the type error raised for a
class not satisfying the capability, and for arguments of any other type. -/
def capabilityMsg : String :=
  "Reparameterisation must be a class satisfying the Reparameterisation capability, a known string, or None"

/-- Modelled from the spec: `get_reparameterisation(identifier)` resolves
`None` and the null aliases to the null reparameterisation, known strings
case/separator-insensitively to their documented `(class, kwargs)` pair,
unknown strings to a value error naming the string, classes to themselves
(with empty kwargs) when they satisfy the capability and to a type error
otherwise, and any other type to that same type error. -/
def get_reparameterisation :
    Identifier → Except RegistryError (PyClass × Kwargs)
  | Identifier.pyNone => Except.ok (NullReparameterisation, [])
  | Identifier.pyStr s =>
    match knownTable.lookup (normalise s) with
    | some ck => Except.ok ck
    | none =>
      Except.error (RegistryError.valueError ("Unknown reparameterisation: " ++ s))
  | Identifier.pyCls c =>
    if c.satisfiesReparameterisation then Except.ok (c, [])
    else Except.error (RegistryError.typeError capabilityMsg)
  | Identifier.pyInt _ => Except.error (RegistryError.typeError capabilityMsg)

/-! ## Sampling utilities, embedded from `nessai/utils/sampling.py` -/

/-- An `(N, dims)` array filled row-major from a stream of variates, the
embedding of a single `np.random.randn(N, dims)` or
`np.random.uniform(0, 1, (N, dims))` call whose generator produces the
stream `s`. -/
def matFromStream (s : ℕ → ℚ) (N dims : ℕ) : List (List ℚ) :=
  (List.range N).map fun i => (List.range dims).map fun j => s (dims * i + j)

/-- Sum of squares of a row: `np.sum(x ** 2., axis=1)` for one row. -/
def sumSq (row : List ℚ) : ℚ := (row.map fun v => v * v).sum

/-- Embedding of `draw_surface_nsphere(dims, r, N)`:
`x = np.random.randn(N, dims); R = sqrt(sum(x**2, axis=1)); return r * (x / R)`.
The Gaussian draw is the stream `g`; `sq` is the `np.sqrt` oracle. -/
def draw_surface_nsphere (dims : ℕ) (r : ℚ) (N : ℕ)
    (sq : ℚ → ℚ) (g : ℕ → ℚ) : List (List ℚ) :=
  (matFromStream g N dims).map fun row =>
    row.map fun v => r * (v / sq (sumSq row))

/-- Embedding of `draw_nsphere(dims, r, N, fuzz)`:
`x = draw_surface_nsphere(dims, 1, N); R = np.random.uniform(0, 1, (N, 1));
z = R ** (1 / dims) * x; return fuzz * r * z`.  `u` is the uniform stream
(so row `i` uses `u i`) and `rt` the oracle for `** (1 / dims)`. -/
def draw_nsphere (dims : ℕ) (r : ℚ) (N : ℕ) (fuzz : ℚ)
    (sq rt : ℚ → ℚ) (g u : ℕ → ℚ) : List (List ℚ) :=
  let x := draw_surface_nsphere dims 1 N sq g
  let R := (List.range N).map fun i => u i
  (List.zip R x).map fun p => p.2.map fun v => fuzz * r * (rt p.1 * v)

/-- Embedding of `draw_uniform(dims, r, N, fuzz)`:
`return np.random.uniform(0, 1, (N, dims))`; `r` and `fuzz` are accepted
and ignored, exactly as in the source. -/
def draw_uniform (dims : ℕ) (r : ℚ) (N : ℕ) (fuzz : ℚ)
    (u : ℕ → ℚ) : List (List ℚ) :=
  matFromStream u N dims

/-- Embedding of `draw_gaussian(dims, r, N, fuzz)`:
`return np.random.randn(N, dims)`; `r` and `fuzz` are accepted and
ignored, exactly as in the source. -/
def draw_gaussian (dims : ℕ) (r : ℚ) (N : ℕ) (fuzz : ℚ)
    (g : ℕ → ℚ) : List (List ℚ) :=
  matFromStream g N dims

/-- Embedding of `draw_truncated_gaussian(dims, r, N, fuzz, var)`:
`sigma = sqrt(var); r *= fuzz; u_max = chi.cdf(r / sigma, df=dims);
u = np.random.uniform(0, u_max, N); p = sigma * chi.ppf(u, df=dims);
x = np.random.randn(p.size, dims);
return (p * x.T / sqrt(sum(x**2, axis=1))).T`.
`sq`, `cdf`, `ppf` are the `np.sqrt` / `chi.cdf` / `chi.ppf` oracles; the
uniform draw on `[0, u_max)` is `u_max` times the unit-uniform stream `u`. -/
def draw_truncated_gaussian (dims : ℕ) (r : ℚ) (N : ℕ) (fuzz : ℚ) (var : ℚ)
    (sq cdf ppf : ℚ → ℚ) (u g : ℕ → ℚ) : List (List ℚ) :=
  let sigma := sq var
  let rf := r * fuzz
  let u_max := cdf (rf / sigma)
  let us := (List.range N).map fun i => u_max * u i
  let p := us.map fun ui => sigma * ppf ui
  let x := matFromStream g N dims
  (List.zip p x).map fun q => q.2.map fun v => q.1 * v / sq (sumSq q.2)

/-- Shape predicate for the embedded arrays: `m` has shape `(N, dims)`. -/
def hasShape (m : List (List ℚ)) (N dims : ℕ) : Prop :=
  m.length = N ∧ ∀ row ∈ m, row.length = dims

deriving instance DecidableEq for Except

/-! ## Registry claims -/

/-- Claim C1: every identifier in the documented known-alias table resolves
to exactly the documented `(class, kwargs)` pair, `None`, the string
aliases of the null reparameterisation included, and string resolution is
case-insensitive and treats `-` and `_` as equivalent separators (two
strings with the same normalisation resolve to the same pair). -/
theorem registry_known_aliases_resolve :
    (∀ s₁ s₂, normalise s₁ = normalise s₂ →
      ∀ ck, (get_reparameterisation (Identifier.pyStr s₁) = Except.ok ck ↔
             get_reparameterisation (Identifier.pyStr s₂) = Except.ok ck)) ∧
    get_reparameterisation Identifier.pyNone =
      Except.ok (NullReparameterisation, []) ∧
    get_reparameterisation (Identifier.pyStr ("none")) =
      Except.ok (NullReparameterisation, []) ∧
    get_reparameterisation (Identifier.pyStr ("null")) =
      Except.ok (NullReparameterisation, []) ∧
    get_reparameterisation (Identifier.pyStr ("default")) =
      Except.ok (RescaleToBounds, []) ∧
    get_reparameterisation (Identifier.pyStr ("rescaletobounds")) =
      Except.ok (RescaleToBounds, []) ∧
    get_reparameterisation (Identifier.pyStr ("rescale-to-bounds")) =
      Except.ok (RescaleToBounds, []) ∧
    get_reparameterisation (Identifier.pyStr ("offset")) =
      Except.ok (RescaleToBounds, [("offset", KwValue.bool true)]) ∧
    get_reparameterisation (Identifier.pyStr ("inversion")) =
      Except.ok (RescaleToBounds,
        [("detect_edges", KwValue.bool true),
         ("boundary_inversion", KwValue.bool true),
         ("inversion_type", KwValue.str ("split"))]) ∧
    get_reparameterisation (Identifier.pyStr ("inversion-duplicate")) =
      Except.ok (RescaleToBounds,
        [("detect_edges", KwValue.bool true),
         ("boundary_inversion", KwValue.bool true),
         ("inversion_type", KwValue.str ("duplicate"))]) ∧
    get_reparameterisation (Identifier.pyStr ("scale")) =
      Except.ok (Rescale, []) ∧
    get_reparameterisation (Identifier.pyStr ("rescale")) =
      Except.ok (Rescale, []) ∧
    get_reparameterisation (Identifier.pyStr ("angle")) =
      Except.ok (Angle, []) ∧
    get_reparameterisation (Identifier.pyStr ("angle-pi")) =
      Except.ok (Angle,
        [("scale", KwValue.num 2), ("prior", KwValue.str ("uniform"))]) ∧
    get_reparameterisation (Identifier.pyStr ("angle-2pi")) =
      Except.ok (Angle,
        [("scale", KwValue.num 1), ("prior", KwValue.str ("uniform"))]) ∧
    get_reparameterisation (Identifier.pyStr ("angle-sine")) =
      Except.ok (Angle,
        [("scale", KwValue.num 1), ("prior", KwValue.str ("sine"))]) ∧
    get_reparameterisation (Identifier.pyStr ("angle-pair")) =
      Except.ok (AnglePair, []) ∧
    get_reparameterisation (Identifier.pyStr ("to-cartesian")) =
      Except.ok (ToCartesian, []) := by
  constructor
  · intro s₁ s₂ h ck
    simp only [get_reparameterisation, h]
    cases knownTable.lookup (normalise s₂) with
    | none => simp
    | some a => exact Iff.rfl
  · refine ⟨?_, ?_, ?_, ?_, ?_, ?_, ?_, ?_, ?_, ?_, ?_, ?_, ?_, ?_, ?_, ?_,
      ?_⟩ <;> decide

/-- Claim C1 witness: concrete case- and separator-insensitive resolution of
a mixed-case, underscore-separated alias through the registry. -/
theorem registry_known_aliases_resolve_witness :
    get_reparameterisation (Identifier.pyStr ("Angle_PI")) =
      Except.ok (Angle,
        [("scale", KwValue.num 2), ("prior", KwValue.str ("uniform"))]) :=
  (registry_known_aliases_resolve.1 ("Angle_PI") ("angle-pi") (by decide)
    _).mpr (by decide)

/-- Claim C2: a string whose normalisation is not a key of the known-alias
table makes `get_reparameterisation` fail with a value error whose message
is exactly "Unknown reparameterisation: " followed by the string verbatim. -/
theorem registry_unknown_string_value_error (s : String)
    (h : knownTable.lookup (normalise s) = none) :
    get_reparameterisation (Identifier.pyStr s) =
      Except.error
        (RegistryError.valueError ("Unknown reparameterisation: " ++ s)) := by
  simp only [get_reparameterisation, h]

/-- Claim C2 witness: the unknown name "shift" raises the value error
naming it, as in the repository's test suite. -/
theorem registry_unknown_string_value_error_witness :
    get_reparameterisation (Identifier.pyStr ("shift")) =
      Except.error
        (RegistryError.valueError ("Unknown reparameterisation: " ++ "shift")) :=
  registry_unknown_string_value_error ("shift") (by decide)

/-- Claim C3: an identifier that is neither `None`, nor a string, nor a
class satisfying the Reparameterisation capability (an integer, or a class
failing the capability) makes `get_reparameterisation` fail with a type
error, the same message in both cases, and that message starts with the
fragment "Reparameterisation must be". -/
theorem registry_invalid_type_error :
    (∀ n : Int, get_reparameterisation (Identifier.pyInt n) =
      Except.error (RegistryError.typeError capabilityMsg)) ∧
    (∀ c : PyClass, c.satisfiesReparameterisation = false →
      get_reparameterisation (Identifier.pyCls c) =
        Except.error (RegistryError.typeError capabilityMsg)) ∧
    List.isPrefixOf ("Reparameterisation must be").data capabilityMsg.data = true := by
  refine ⟨fun n => rfl, fun c h => ?_, by decide⟩
  simp [get_reparameterisation, h]

/-- Claim C3 witness: the integer `2` and a concrete class not satisfying
the capability both raise the type error with the shared message. -/
theorem registry_invalid_type_error_witness :
    get_reparameterisation (Identifier.pyInt 2) =
      Except.error (RegistryError.typeError capabilityMsg) ∧
    get_reparameterisation (Identifier.pyCls (PyClass.mk ("TestReparam") false)) =
      Except.error (RegistryError.typeError capabilityMsg) :=
  ⟨registry_invalid_type_error.1 2,
   registry_invalid_type_error.2.1 (PyClass.mk ("TestReparam") false) rfl⟩

/-- Claim C4: a class satisfying the Reparameterisation capability resolves
to itself with empty kwargs. -/
theorem registry_class_resolves_to_itself (c : PyClass)
    (h : c.satisfiesReparameterisation = true) :
    get_reparameterisation (Identifier.pyCls c) = Except.ok (c, []) := by
  simp [get_reparameterisation, h]

/-- Claim C4 witness: a concrete capability-satisfying class resolves to
itself with empty kwargs. -/
theorem registry_class_resolves_to_itself_witness :
    get_reparameterisation (Identifier.pyCls (PyClass.mk ("TestReparam") true)) =
      Except.ok (PyClass.mk ("TestReparam") true, []) :=
  registry_class_resolves_to_itself (PyClass.mk ("TestReparam") true) rfl

/-! ## Sampling lemmas -/

lemma sumSq_cons (a : ℚ) (t : List ℚ) : sumSq (a :: t) = a * a + sumSq t := by
  simp [sumSq]

lemma sumSq_map_mul (c : ℚ) (l : List ℚ) :
    sumSq (l.map fun v => c * v) = c ^ 2 * sumSq l := by
  induction l with
  | nil => simp [sumSq]
  | cons a t ih =>
    rw [List.map_cons, sumSq_cons, ih, sumSq_cons]
    ring

lemma sumSq_nonneg (l : List ℚ) : 0 ≤ sumSq l := by
  induction l with
  | nil => simp [sumSq]
  | cons a t ih =>
    rw [sumSq_cons]
    exact add_nonneg (mul_self_nonneg a) ih

lemma sumSq_map_scale_div (r S : ℚ) (l : List ℚ) :
    sumSq (l.map fun v => r * (v / S)) = (r / S) ^ 2 * sumSq l := by
  have h : (fun v : ℚ => r * (v / S)) = fun v => (r / S) * v := by
    funext v
    ring
  rw [h, sumSq_map_mul]

lemma matFromStream_shape (s : ℕ → ℚ) (N dims : ℕ) :
    hasShape (matFromStream s N dims) N dims := by
  refine ⟨by simp [matFromStream], ?_⟩
  intro row hrow
  simp only [matFromStream, List.mem_map] at hrow
  obtain ⟨i, _, rfl⟩ := hrow
  simp

lemma draw_surface_nsphere_shape (dims : ℕ) (r : ℚ) (N : ℕ)
    (sq : ℚ → ℚ) (g : ℕ → ℚ) :
    hasShape (draw_surface_nsphere dims r N sq g) N dims := by
  obtain ⟨h1, h2⟩ := matFromStream_shape g N dims
  refine ⟨by simpa [draw_surface_nsphere] using h1, ?_⟩
  intro row hrow
  simp only [draw_surface_nsphere, List.mem_map] at hrow
  obtain ⟨y, hy, rfl⟩ := hrow
  simpa using h2 y hy

lemma draw_nsphere_shape (dims : ℕ) (r : ℚ) (N : ℕ) (fuzz : ℚ)
    (sq rt : ℚ → ℚ) (g u : ℕ → ℚ) :
    hasShape (draw_nsphere dims r N fuzz sq rt g u) N dims := by
  obtain ⟨h1, h2⟩ := draw_surface_nsphere_shape dims 1 N sq g
  constructor
  · simp [draw_nsphere, List.length_zip, h1]
  · intro row hrow
    simp only [draw_nsphere, List.mem_map] at hrow
    obtain ⟨p, hp, rfl⟩ := hrow
    have hmem := List.of_mem_zip hp
    simpa using h2 p.2 hmem.2

lemma draw_truncated_gaussian_shape (dims : ℕ) (r : ℚ) (N : ℕ)
    (fuzz var : ℚ) (sq cdf ppf : ℚ → ℚ) (u g : ℕ → ℚ) :
    hasShape (draw_truncated_gaussian dims r N fuzz var sq cdf ppf u g)
      N dims := by
  obtain ⟨h1, h2⟩ := matFromStream_shape g N dims
  constructor
  · simp [draw_truncated_gaussian, List.length_zip, h1]
  · intro row hrow
    simp only [draw_truncated_gaussian, List.mem_map] at hrow
    obtain ⟨p, hp, rfl⟩ := hrow
    have hmem := List.of_mem_zip hp
    simpa using h2 p.2 hmem.2

/-! ## Sampling claims -/

/-- Claim C5: for every `N` and `dims` (in particular the positive ones)
and any radius and fuzz arguments, `draw_uniform`, `draw_gaussian`,
`draw_nsphere` and `draw_surface_nsphere` return an array of shape
`(N, dims)`. -/
theorem draw_functions_shape (dims N : ℕ) (r fuzz : ℚ) (sq rt : ℚ → ℚ)
    (g u : ℕ → ℚ) :
    hasShape (draw_uniform dims r N fuzz u) N dims ∧
    hasShape (draw_gaussian dims r N fuzz g) N dims ∧
    hasShape (draw_nsphere dims r N fuzz sq rt g u) N dims ∧
    hasShape (draw_surface_nsphere dims r N sq g) N dims :=
  ⟨matFromStream_shape u N dims, matFromStream_shape g N dims,
   draw_nsphere_shape dims r N fuzz sq rt g u,
   draw_surface_nsphere_shape dims r N sq g⟩

/-- Python signature of a sampling function: its positional parameter
names in order, and how many of them (a suffix) carry default values. -/
structure PySignature where
  params : List String
  defaults : ℕ

/-- Python positional-call arity: a call with `n` positional arguments
binds exactly when `n` covers the non-defaulted parameters and does not
exceed the parameter count; otherwise the call raises a TypeError. -/
def acceptsCall (s : PySignature) (n : ℕ) : Prop :=
  s.params.length - s.defaults ≤ n ∧ n ≤ s.params.length

instance (s : PySignature) (n : ℕ) : Decidable (acceptsCall s n) :=
  inferInstanceAs
    (Decidable (s.params.length - s.defaults ≤ n ∧ n ≤ s.params.length))

/-- Signature of `def draw_surface_nsphere(dims, r=1, N=1000)`
(sampling.py line 9): three parameters, `r` and `N` defaulted — there is
no `fuzz` parameter. -/
def draw_surface_nsphere_sig : PySignature := ⟨["dims", "r", "N"], 2⟩

/-- Signature of `def draw_nsphere(dims, r=1, N=1000, fuzz=1.0)`
(sampling.py line 36). -/
def draw_nsphere_sig : PySignature := ⟨["dims", "r", "N", "fuzz"], 3⟩

/-- Signature of `def draw_uniform(dims, r=(1,), N=1000, fuzz=1.0)`
(sampling.py line 62). -/
def draw_uniform_sig : PySignature := ⟨["dims", "r", "N", "fuzz"], 3⟩

/-- Signature of `def draw_gaussian(dims, r=1, N=1000, fuzz=1.0)`
(sampling.py line 88). -/
def draw_gaussian_sig : PySignature := ⟨["dims", "r", "N", "fuzz"], 3⟩

/-- Signature of `def draw_truncated_gaussian(dims, r, N=1000, fuzz=1.0,
var=1)` (sampling.py line 112): five parameters, the last three
defaulted. -/
def draw_truncated_gaussian_sig : PySignature :=
  ⟨["dims", "r", "N", "fuzz", "var"], 3⟩

/-- Claim C7 counterexample: four of the variants do accept the
four-argument capability call `draw(dims, r, N, fuzz)`, but
`draw_surface_nsphere` has only the three parameters `(dims, r, N)` and
no `fuzz`, so a four-positional-argument call to it does not bind (it
raises a TypeError), refuting «each accepts all four arguments dims, r,
N, and fuzz». -/
theorem draw_surface_nsphere_rejects_fuzz :
    acceptsCall draw_uniform_sig 4 ∧
    acceptsCall draw_gaussian_sig 4 ∧
    acceptsCall draw_nsphere_sig 4 ∧
    acceptsCall draw_truncated_gaussian_sig 4 ∧
    ¬ acceptsCall draw_surface_nsphere_sig 4 := by decide

/-- Claim C7, amended: `draw_uniform`, `draw_gaussian`, `draw_nsphere`
and `draw_truncated_gaussian` accept the capability-interface call
`draw(dims, r, N, fuzz)` (each ignoring the arguments it does not need),
while `draw_surface_nsphere` accepts only the three-argument call
`(dims, r, N)`; every variant returns an array of shape `(N, dims)`, so
the variants are interchangeable as fallback proposals only up to that
arity difference. -/
theorem draw_capability_interface_amended (dims N : ℕ) (r fuzz var : ℚ)
    (sq rt cdf ppf : ℚ → ℚ) (g u : ℕ → ℚ) :
    acceptsCall draw_uniform_sig 4 ∧
    acceptsCall draw_gaussian_sig 4 ∧
    acceptsCall draw_nsphere_sig 4 ∧
    acceptsCall draw_truncated_gaussian_sig 4 ∧
    acceptsCall draw_surface_nsphere_sig 3 ∧
    hasShape (draw_uniform dims r N fuzz u) N dims ∧
    hasShape (draw_gaussian dims r N fuzz g) N dims ∧
    hasShape (draw_nsphere dims r N fuzz sq rt g u) N dims ∧
    hasShape (draw_surface_nsphere dims r N sq g) N dims ∧
    hasShape (draw_truncated_gaussian dims r N fuzz var sq cdf ppf u g)
      N dims :=
  ⟨by decide, by decide, by decide, by decide, by decide,
   matFromStream_shape u N dims, matFromStream_shape g N dims,
   draw_nsphere_shape dims r N fuzz sq rt g u,
   draw_surface_nsphere_shape dims r N sq g,
   draw_truncated_gaussian_shape dims r N fuzz var sq cdf ppf u g⟩

lemma draw_surface_nsphere_row_sumSq (dims N : ℕ) (r : ℚ) (sq : ℚ → ℚ)
    (g : ℕ → ℚ)
    (hsq : ∀ row ∈ matFromStream g N dims,
      sq (sumSq row) ^ 2 = sumSq row ∧ sumSq row ≠ 0) :
    ∀ row ∈ draw_surface_nsphere dims r N sq g, sumSq row = r ^ 2 := by
  intro row hrow
  simp only [draw_surface_nsphere, List.mem_map] at hrow
  obtain ⟨y, hy, rfl⟩ := hrow
  obtain ⟨h1, h2⟩ := hsq y hy
  rw [sumSq_map_scale_div, div_pow, h1]
  exact div_mul_cancel₀ _ h2

/-- Gaussian stream whose `(1, 2)` draw is the single row `[3, 4]`. -/
def gauss34 : ℕ → ℚ := fun n => if n = 0 then 3 else 4

/-- Square-root oracle, faithful at the sums of squares at which the
concrete instances apply it (`sqrt 25 = 5`, `sqrt 1 = 1`). -/
def sqrtOracle : ℚ → ℚ := fun q => if q = 25 then 5 else if q = 1 then 1 else 0

/-- Oracle for `** (1 / dims)` with `dims = 2`, faithful at the uniform
variate at which the concrete instance applies it
(`(49/100) ** (1/2) = 7/10`). -/
def rootOracle : ℚ → ℚ := fun q => if q = 49 / 100 then 7 / 10 else 0

/-- Constant uniform stream at `49/100 ∈ [0, 1)`. -/
def unif049 : ℕ → ℚ := fun _ => 49 / 100

lemma mat_gauss34 : matFromStream gauss34 1 2 = [[3, 4]] := by
  norm_num [matFromStream, List.range_succ, gauss34]

lemma surf_eval : draw_surface_nsphere 2 1 1 sqrtOracle gauss34 =
    [[3 / 5, 4 / 5]] := by
  rw [draw_surface_nsphere, mat_gauss34]
  norm_num [sumSq, sqrtOracle]

lemma nsphere_eval : draw_nsphere 2 1 1 2 sqrtOracle rootOracle gauss34
    unif049 = [[21 / 25, 28 / 25]] := by
  simp only [draw_nsphere, surf_eval]
  norm_num [List.range_succ, unif049, rootOracle]

lemma hsq_gauss34 : ∀ row ∈ matFromStream gauss34 1 2,
    sqrtOracle (sumSq row) ^ 2 = sumSq row ∧ sumSq row ≠ 0 := by
  rw [mat_gauss34]
  intro row hrow
  rw [List.mem_singleton] at hrow
  subst hrow
  norm_num [sumSq, sqrtOracle]

lemma hrt_unif049 : ∀ i : ℕ, 0 ≤ rootOracle (unif049 i) ∧
    rootOracle (unif049 i) ≤ 1 := by
  intro i
  norm_num [rootOracle, unif049]

/-- Claim C6 counterexample: with `dims = 2`, `r = 1`, `N = 1`, `fuzz = 2`,
the Gaussian draw `[3, 4]`, the uniform radial variate `49/100 ∈ [0, 1)`,
and oracles faithful at every point they are applied to, the single row of
`draw_nsphere` is `[21/25, 28/25]`, whose squared norm `49/25` exceeds
`r² = 1`: the row lies outside the radius-`r` ball, refuting «every row of
the array returned by `draw_nsphere(dims, r, N, fuzz)` has Euclidean norm
at most `r`». -/
theorem draw_nsphere_exceeds_radius :
    sqrtOracle (sumSq [(3 : ℚ), 4]) ^ 2 = sumSq [(3 : ℚ), 4] ∧
    sumSq [(3 : ℚ), 4] ≠ 0 ∧
    rootOracle (49 / 100) ^ 2 = 49 / 100 ∧
    0 ≤ rootOracle (49 / 100) ∧ rootOracle (49 / 100) < 1 ∧
    0 ≤ unif049 0 ∧ unif049 0 < 1 ∧
    draw_nsphere 2 1 1 2 sqrtOracle rootOracle gauss34 unif049 =
      [[21 / 25, 28 / 25]] ∧
    ¬ (∀ row ∈ draw_nsphere 2 1 1 2 sqrtOracle rootOracle gauss34 unif049,
        sumSq row ≤ 1 ^ 2) := by
  refine ⟨by norm_num [sumSq, sqrtOracle], by norm_num [sumSq],
    by norm_num [rootOracle], by norm_num [rootOracle],
    by norm_num [rootOracle], by norm_num [unif049], by norm_num [unif049],
    nsphere_eval, ?_⟩
  intro h
  have hbound := h ([(21 : ℚ) / 25, 28 / 25])
    (by rw [nsphere_eval]; exact List.mem_singleton.mpr rfl)
  norm_num [sumSq] at hbound

/-- Claim C6, amended: when the square-root oracle is faithful on the
Gaussian rows (all nonzero) and the radial factors `R ** (1/dims)` lie in
`[0, 1]`, every row of `draw_surface_nsphere` has squared Euclidean norm
exactly `r²`, and every row of `draw_nsphere` has squared norm at most
`(fuzz · r)²` — the fuzz factor scales the enclosing radius, so the
`norm ≤ r` bound only holds once `r` is replaced by `fuzz · r`. -/
theorem draw_radius_bounds (dims N : ℕ) (r fuzz : ℚ) (sq rt : ℚ → ℚ)
    (g u : ℕ → ℚ)
    (hsq : ∀ row ∈ matFromStream g N dims,
      sq (sumSq row) ^ 2 = sumSq row ∧ sumSq row ≠ 0)
    (hrt : ∀ i, 0 ≤ rt (u i) ∧ rt (u i) ≤ 1) :
    (∀ row ∈ draw_surface_nsphere dims r N sq g, sumSq row = r ^ 2) ∧
    (∀ row ∈ draw_nsphere dims r N fuzz sq rt g u,
      sumSq row ≤ (fuzz * r) ^ 2) := by
  refine ⟨draw_surface_nsphere_row_sumSq dims N r sq g hsq, ?_⟩
  intro row hrow
  simp only [draw_nsphere, List.mem_map] at hrow
  obtain ⟨p, hp, rfl⟩ := hrow
  have hmem := List.of_mem_zip hp
  have h1 : ∃ i, u i = p.1 := by
    have h := hmem.1
    simp only [List.mem_map, List.mem_range] at h
    obtain ⟨i, _, hi⟩ := h
    exact ⟨i, hi⟩
  obtain ⟨i, hi⟩ := h1
  have hsurf : sumSq p.2 = 1 ^ 2 :=
    draw_surface_nsphere_row_sumSq dims N 1 sq g hsq p.2 hmem.2
  have hfun : (fun v : ℚ => fuzz * r * (rt p.1 * v)) =
      fun v => (fuzz * r * rt p.1) * v := by
    funext v
    ring
  rw [hfun, sumSq_map_mul, hsurf]
  obtain ⟨hrt0, hrt1⟩ := hrt i
  rw [hi] at hrt0 hrt1
  have ht2 : rt p.1 ^ 2 ≤ 1 := by nlinarith
  have key : 0 ≤ (fuzz * r) ^ 2 * (1 - rt p.1 ^ 2) :=
    mul_nonneg (sq_nonneg _) (by linarith)
  nlinarith [key]

/-- Claim C6 amended witness: on the concrete instance of the
counterexample, the surface row `[3/5, 4/5]` has squared norm exactly `1²`
and the `draw_nsphere` row `[21/25, 28/25]` has squared norm at most
`(fuzz · r)² = 4`. -/
theorem draw_radius_bounds_witness :
    sumSq [(3 : ℚ) / 5, 4 / 5] = 1 ^ 2 ∧
    sumSq [(21 : ℚ) / 25, 28 / 25] ≤ ((2 : ℚ) * 1) ^ 2 :=
  ⟨(draw_radius_bounds 2 1 1 2 sqrtOracle rootOracle gauss34 unif049
      hsq_gauss34 hrt_unif049).1 ([(3 : ℚ) / 5, 4 / 5])
      (by rw [surf_eval]; exact List.mem_singleton.mpr (by norm_num)),
   (draw_radius_bounds 2 1 1 2 sqrtOracle rootOracle gauss34 unif049
      hsq_gauss34 hrt_unif049).2 ([(21 : ℚ) / 25, 28 / 25])
      (by rw [nsphere_eval]; exact List.mem_singleton.mpr (by norm_num))⟩

/-- Identity oracle, a valid `chi.cdf` / `chi.ppf` pair for the concrete
instance (monotone, nonnegative on nonnegatives, and a section/retraction
pair at the point where roundtripping is needed). -/
def idOracle : ℚ → ℚ := fun q => q

/-- Constant uniform stream at `1/2 ∈ [0, 1)`. -/
def halfStream : ℕ → ℚ := fun _ => 1 / 2

/-- Stream that is identically zero: its Gaussian draw is a zero row. -/
def zeroStream : ℕ → ℚ := fun _ => 0

lemma half_mem_unit : ∀ i : ℕ, 0 ≤ halfStream i ∧ halfStream i < 1 := by
  intro i
  norm_num [halfStream]

lemma trunc_eval : draw_truncated_gaussian 2 1 1 1 1 sqrtOracle idOracle
    idOracle halfStream gauss34 = [[3 / 10, 2 / 5]] := by
  simp only [draw_truncated_gaussian, mat_gauss34]
  norm_num [List.range_succ, halfStream, idOracle, sqrtOracle, sumSq]

/-- Claim C8: every row of `draw_truncated_gaussian(dims, r, N, fuzz, var)`
has squared Euclidean norm at most `(fuzz · r)²`.  The radial magnitudes
are `sigma * chi_ppf(u)` for `u` uniform on `[0, u_max]` with
`u_max = chi_cdf(fuzz * r / sigma)`, so with `chi_ppf` monotone,
nonnegative, and inverting `chi_cdf` at `fuzz * r / sigma`, the truncation
radius scales with the fuzz factor (despite the docstring calling `fuzz`
ignored). -/
theorem draw_truncated_gaussian_norm_bound (dims N : ℕ) (r fuzz var : ℚ)
    (sq cdf ppf : ℚ → ℚ) (u g : ℕ → ℚ)
    (hσ : 0 < sq var)
    (hmono : ∀ a b, 0 ≤ a → a ≤ b → ppf a ≤ ppf b)
    (hnn : ∀ a, 0 ≤ a → 0 ≤ ppf a)
    (hround : ppf (cdf (r * fuzz / sq var)) = r * fuzz / sq var)
    (hcdf : 0 ≤ cdf (r * fuzz / sq var))
    (hu : ∀ i, 0 ≤ u i ∧ u i ≤ 1)
    (hrf : 0 ≤ r * fuzz)
    (hsq : ∀ row ∈ matFromStream g N dims,
      sq (sumSq row) ^ 2 = sumSq row ∧ sumSq row ≠ 0) :
    ∀ row ∈ draw_truncated_gaussian dims r N fuzz var sq cdf ppf u g,
      sumSq row ≤ (fuzz * r) ^ 2 := by
  intro row hrow
  simp only [draw_truncated_gaussian, List.mem_map, List.map_map] at hrow
  obtain ⟨q, hq, rfl⟩ := hrow
  have hmem := List.of_mem_zip hq
  have hq1 : ∃ i, q.1 = sq var * ppf (cdf (r * fuzz / sq var) * u i) := by
    have h := hmem.1
    simp only [List.mem_map, List.mem_range, Function.comp] at h
    obtain ⟨i, _, hi⟩ := h
    exact ⟨i, hi.symm⟩
  obtain ⟨i, hi⟩ := hq1
  obtain ⟨hS, hQ⟩ := hsq q.2 hmem.2
  have hfun : (fun v : ℚ => q.1 * v / sq (sumSq q.2)) =
      fun v => (q.1 / sq (sumSq q.2)) * v := by
    funext v
    ring
  rw [hfun, sumSq_map_mul, div_pow, hS, div_mul_cancel₀ _ hQ]
  have h0 : 0 ≤ cdf (r * fuzz / sq var) * u i :=
    mul_nonneg hcdf (hu i).1
  have hub : cdf (r * fuzz / sq var) * u i ≤ cdf (r * fuzz / sq var) := by
    nlinarith [(hu i).1, (hu i).2, hcdf]
  have hple : ppf (cdf (r * fuzz / sq var) * u i) ≤
      ppf (cdf (r * fuzz / sq var)) := hmono _ _ h0 hub
  have hq1le : q.1 ≤ r * fuzz := by
    rw [hi]
    calc sq var * ppf (cdf (r * fuzz / sq var) * u i) ≤
        sq var * ppf (cdf (r * fuzz / sq var)) :=
          mul_le_mul_of_nonneg_left hple (le_of_lt hσ)
      _ = sq var * (r * fuzz / sq var) := by rw [hround]
      _ = r * fuzz := by field_simp
  have hq1nn : 0 ≤ q.1 := by
    rw [hi]
    exact mul_nonneg (le_of_lt hσ) (hnn _ h0)
  nlinarith [hq1le, hq1nn]

/-- Claim C8 witness: on the concrete instance (`dims = 2`, `r = fuzz =
var = 1`, identity chi oracles, uniform variate `1/2`, Gaussian row
`[3, 4]`) the single output row `[3/10, 2/5]` has squared norm at most
`(fuzz · r)² = 1`. -/
theorem draw_truncated_gaussian_norm_bound_witness :
    sumSq [(3 : ℚ) / 10, 2 / 5] ≤ ((1 : ℚ) * 1) ^ 2 :=
  draw_truncated_gaussian_norm_bound 2 1 1 1 1 sqrtOracle idOracle idOracle
    halfStream gauss34 (by norm_num [sqrtOracle]) (fun a b _ h => h)
    (fun a h => h) (by norm_num [idOracle, sqrtOracle])
    (by norm_num [idOracle, sqrtOracle])
    (fun i => ⟨(half_mem_unit i).1, le_of_lt (half_mem_unit i).2⟩)
    (by norm_num) hsq_gauss34 ([(3 : ℚ) / 10, 2 / 5])
    (by rw [trunc_eval]; exact List.mem_singleton.mpr (by norm_num))

lemma sumSq_eq_zero_of_zero (l : List ℚ) (h : ∀ v ∈ l, v = 0) :
    sumSq l = 0 := by
  induction l with
  | nil => rfl
  | cons a t ih =>
    rw [sumSq_cons, h a (List.mem_cons_self a t),
      ih (fun v hv => h v (List.mem_cons_of_mem a hv))]
    ring

lemma mat_zero : matFromStream zeroStream 1 1 = [[0]] := by
  norm_num [matFromStream, List.range_succ, zeroStream]

/-- Claim C9: `draw_surface_nsphere` normalises each Gaussian row by its
Euclidean norm with no guard.  When a drawn row is the zero vector the
divisor `sqrt(sum(x²))` is `0`, no domain error is signalled (the function
still returns a full `(N, dims)` array containing the offending row's
image), and that output row is not a point on the sphere: its squared norm
is `0`, not `r²`.  (In IEEE arithmetic the row is NaN; in this exact
embedding the unguarded division by zero yields the non-sphere row.) -/
theorem draw_surface_nsphere_zero_row (dims N : ℕ) (r : ℚ) (sq : ℚ → ℚ)
    (g : ℕ → ℚ) (row : List ℚ)
    (hrow : row ∈ matFromStream g N dims)
    (hz : ∀ v ∈ row, v = 0)
    (hsq0 : sq 0 = 0)
    (hr : r ≠ 0) :
    hasShape (draw_surface_nsphere dims r N sq g) N dims ∧
    sq (sumSq row) = 0 ∧
    (row.map fun v => r * (v / sq (sumSq row))) ∈
      draw_surface_nsphere dims r N sq g ∧
    sumSq (row.map fun v => r * (v / sq (sumSq row))) = 0 ∧
    sumSq (row.map fun v => r * (v / sq (sumSq row))) ≠ r ^ 2 := by
  have h0 : sumSq row = 0 := sumSq_eq_zero_of_zero row hz
  have hdiv : sq (sumSq row) = 0 := by rw [h0, hsq0]
  have hmap0 : sumSq (row.map fun v => r * (v / sq (sumSq row))) = 0 := by
    apply sumSq_eq_zero_of_zero
    intro v hv
    simp only [List.mem_map] at hv
    obtain ⟨w, hw, rfl⟩ := hv
    rw [hz w hw]
    ring
  refine ⟨draw_surface_nsphere_shape dims r N sq g, hdiv, ?_, hmap0, ?_⟩
  · simp only [draw_surface_nsphere, List.mem_map]
    exact ⟨row, hrow, rfl⟩
  · rw [hmap0]
    intro hc
    exact hr ((pow_eq_zero_iff two_ne_zero).mp hc.symm)

/-- Claim C9 witness: with the identically-zero Gaussian stream,
`dims = N = r = 1` and `np.sqrt(0) = 0`, the output row corresponding to
the zero draw has squared norm `0 ≠ r²`. -/
theorem draw_surface_nsphere_zero_row_witness :
    sumSq ([(0 : ℚ)].map fun v =>
      (1 : ℚ) * (v / sqrtOracle (sumSq [(0 : ℚ)]))) = 0 ∧
    sumSq ([(0 : ℚ)].map fun v =>
      (1 : ℚ) * (v / sqrtOracle (sumSq [(0 : ℚ)]))) ≠ 1 ^ 2 :=
  (draw_surface_nsphere_zero_row 1 1 1 sqrtOracle zeroStream ([(0 : ℚ)])
    (by rw [mat_zero]; exact List.mem_singleton.mpr rfl)
    (fun v hv => List.mem_singleton.mp hv)
    (by norm_num [sqrtOracle]) one_ne_zero).2.2.2

/-- Claim C10: the output of `draw_uniform(dims, r, N, fuzz)` does not
depend on `r` or `fuzz` — from the same generator state (the same uniform
stream) two calls with different `r` and `fuzz` return identical arrays —
and every entry lies in `[0, 1)` whenever the stream's variates do. -/
theorem draw_uniform_ignores_r_fuzz (dims N : ℕ) (r₁ r₂ fuzz₁ fuzz₂ : ℚ)
    (u : ℕ → ℚ) (hu : ∀ n, 0 ≤ u n ∧ u n < 1) :
    draw_uniform dims r₁ N fuzz₁ u = draw_uniform dims r₂ N fuzz₂ u ∧
    ∀ row ∈ draw_uniform dims r₁ N fuzz₁ u, ∀ v ∈ row, 0 ≤ v ∧ v < 1 := by
  refine ⟨rfl, ?_⟩
  intro row hrow v hv
  simp only [draw_uniform, matFromStream, List.mem_map] at hrow
  obtain ⟨i, _, rfl⟩ := hrow
  simp only [List.mem_map] at hv
  obtain ⟨j, _, rfl⟩ := hv
  exact hu _

lemma uniform_half_eval : draw_uniform 1 3 1 5 halfStream = [[1 / 2]] := by
  norm_num [draw_uniform, matFromStream, List.range_succ, halfStream]

/-- Claim C10 witness: from the same stream, `draw_uniform` with
`(r, fuzz) = (3, 5)` and with `(r, fuzz) = (7, 11)` return the same array,
whose single entry `1/2` lies in `[0, 1)`. -/
theorem draw_uniform_ignores_r_fuzz_witness :
    draw_uniform 1 3 1 5 halfStream = draw_uniform 1 7 1 11 halfStream ∧
    (0 ≤ (1 : ℚ) / 2 ∧ (1 : ℚ) / 2 < 1) :=
  ⟨(draw_uniform_ignores_r_fuzz 1 1 3 7 5 11 halfStream half_mem_unit).1,
   (draw_uniform_ignores_r_fuzz 1 1 3 7 5 11 halfStream half_mem_unit).2
     ([(1 : ℚ) / 2])
     (by rw [uniform_half_eval]; exact List.mem_singleton.mpr rfl)
     ((1 : ℚ) / 2) (List.mem_singleton.mpr rfl)⟩
